import Mathlib

/-!
Verification development for the File-Sorter repository
(src/main.rs, src/watch.rs).

Modelling conventions:
* Paths inside the watched target directory are lists of path components
  relative to the target directory; the empty list denotes the target
  directory itself, which always exists as a directory.
* The filesystem is an association list from such paths to entries
  (regular file or directory).  Every filesystem operation returns the
  (possibly mutated) state together with an `Except` result, because the
  real filesystem is not rolled back when a later step of a handler fails.
* IO nondeterminism that does not come from the modelled directory state
  (per-entry read failures of `read_dir`, event-channel delivery faults,
  watcher-registration failure) is passed in as explicit inputs.
-/

/-- Decidable equality for `Except`, used to state concrete facts about
operation results. -/
instance exceptDecEq {ε α : Type} [DecidableEq ε] [DecidableEq α] :
    DecidableEq (Except ε α) := fun a b =>
  match a, b with
  | Except.ok x, Except.ok y =>
    if h : x = y then isTrue (by rw [h]) else isFalse (by simp [h])
  | Except.error x, Except.error y =>
    if h : x = y then isTrue (by rw [h]) else isFalse (by simp [h])
  | Except.ok _, Except.error _ => isFalse (by simp)
  | Except.error _, Except.ok _ => isFalse (by simp)

/-- Kind of a filesystem entry. -/
inductive Entry
  | file
  | dir
deriving DecidableEq

/-- A filesystem path, as a list of components relative to the target
directory (`[]` is the target directory itself). -/
abbrev FPath := List String

/-- The filesystem state: an association list from paths to entries. -/
structure FS where
  entries : List (FPath × Entry)
deriving DecidableEq

/-- First-match lookup in the entry list. -/
def lookupEntries : List (FPath × Entry) → FPath → Option Entry
  | [], _ => none
  | (q, ent) :: rest, p => if p = q then some ent else lookupEntries rest p

def FS.lookup (fs : FS) (p : FPath) : Option Entry :=
  lookupEntries fs.entries p

/-- Remove every binding of a key from the entry list. -/
def removeKey : List (FPath × Entry) → FPath → List (FPath × Entry)
  | [], _ => []
  | (q, ent) :: rest, p =>
    if p = q then removeKey rest p else (q, ent) :: removeKey rest p

def FS.insertEntry (fs : FS) (p : FPath) (ent : Entry) : FS :=
  ⟨(p, ent) :: removeKey fs.entries p⟩

def FS.removeEntry (fs : FS) (p : FPath) : FS :=
  ⟨removeKey fs.entries p⟩

/-- `Path::exists`: true for any entry kind; the target directory itself
always exists. -/
def FS.pathExists (fs : FS) (p : FPath) : Bool :=
  p.isEmpty || (fs.lookup p).isSome

/-- `Path::is_file`: the path designates a regular file. -/
def FS.isFile (fs : FS) (p : FPath) : Bool :=
  decide (fs.lookup p = some Entry.file)

/-- The path designates a directory (the target directory itself is one). -/
def FS.isDir (fs : FS) (p : FPath) : Bool :=
  p.isEmpty || decide (fs.lookup p = some Entry.dir)

/-- Parent path. -/
def parentOf (p : FPath) : FPath := p.dropLast

/-- Errors of the primitive filesystem calls. -/
inductive FsError
  | alreadyExists
  | notFound
  | isADirectory
  | notADirectory
deriving DecidableEq

/-- `std::fs::create_dir`: fails if the path already exists (in any form)
or its parent is not a directory. -/
def FS.create_dir (fs : FS) (p : FPath) : FS × Except FsError Unit :=
  if fs.pathExists p then (fs, Except.error FsError.alreadyExists)
  else if fs.isDir (parentOf p) then (fs.insertEntry p Entry.dir, Except.ok ())
  else (fs, Except.error FsError.notFound)

/-- `std::fs::rename` of a regular file: fails if the source is not a
regular file, the destination is a directory, or the destination's parent
is not a directory; otherwise moves the file, silently overwriting an
existing destination file. -/
def FS.rename (fs : FS) (src dest : FPath) : FS × Except FsError Unit :=
  if fs.isFile src then
    if fs.isDir dest then (fs, Except.error FsError.isADirectory)
    else if fs.isDir (parentOf dest) then
      ((fs.removeEntry src).insertEntry dest Entry.file, Except.ok ())
    else (fs, Except.error FsError.notADirectory)
  else (fs, Except.error FsError.notFound)

/-- Characters after the last dot of a component, if it has a dot. -/
def extSplit : List Char → Option (List Char)
  | [] => none
  | c :: rest =>
    match extSplit rest with
    | some e => some e
    | none => if c = '.' then some rest else none

/-- `Path::extension` on a file name, following Rust's rule: no extension
when the name is `..`, has no dot, or its only dot is the leading one. -/
def rustExtension (name : String) : Option String :=
  if name = ".." then none
  else
    match name.toList with
    | [] => none
    | _ :: rest => (extSplit rest).map fun e => String.mk e

/-- `Path::file_name`: the last component, none for degenerate paths. -/
def fileName : FPath → Option String
  | [] => none
  | ps =>
    match ps.getLast? with
    | none => none
    | some c => if c = ".." ∨ c = "" then none else some c

/-- `Path::extension` of a full path. -/
def pathExtension (p : FPath) : Option String :=
  (fileName p).bind rustExtension

/-- `Path::join` with a single component; joining the empty string is a
no-op, as in Rust (only a trailing separator is added). -/
def pjoin (p : FPath) (c : String) : FPath :=
  if c = "" then p else p ++ [c]

/-- Modelled from the spec: the extension as the spec defines it, "the
substring of the file name after the last `.`" (used only to compare the
code's extension rule against the spec's wording). -/
def specSubstringAfterLastDot (name : String) : Option String :=
  if '.' ∈ name.toList then
    some (String.mk (((name.toList.reverse).takeWhile fun c => c != '.').reverse))
  else none

/-- The error kinds `handle_file` can surface (via `anyhow`). -/
inductive HandleError
  | unclassifiableFile
  | directoryCreateError
  | moveError
deriving DecidableEq

/-- `FileWatcher::create_dir_if_not_exists`: existence check, then
`create_dir`, any creation failure propagated. -/
def create_dir_if_not_exists (fs : FS) (dir : FPath) : FS × Except HandleError Unit :=
  if fs.pathExists dir then (fs, Except.ok ())
  else
    match fs.create_dir dir with
    | (fs2, Except.ok _) => (fs2, Except.ok ())
    | (fs2, Except.error _) => (fs2, Except.error HandleError.directoryCreateError)

/-- `FileWatcher::create_dir_if_not_exists` with the two filesystem
observations made explicit: `fsCheck` is the state seen by the existence
check and `fsCreate` the state seen by `create_dir`, which may differ when
an external actor mutates the directory between the two calls. -/
def create_dir_if_not_exists_raced (fsCheck fsCreate : FS) (dir : FPath) :
    FS × Except HandleError Unit :=
  if fsCheck.pathExists dir then (fsCreate, Except.ok ())
  else
    match fsCreate.create_dir dir with
    | (fs2, Except.ok _) => (fs2, Except.ok ())
    | (fs2, Except.error _) => (fs2, Except.error HandleError.directoryCreateError)

/-- `FileWatcher::move_file`: re-confirm the source is a regular file;
if not, skip silently; otherwise rename, propagating failure. -/
def move_file (fs : FS) (src dest : FPath) : FS × Except HandleError Unit :=
  if fs.isFile src then
    match fs.rename src dest with
    | (fs2, Except.ok _) => (fs2, Except.ok ())
    | (fs2, Except.error _) => (fs2, Except.error HandleError.moveError)
  else (fs, Except.ok ())

/-- `FileWatcher::handle_file`: classify by file name and extension,
ensure the extension bucket exists, then move the file into it. -/
def handle_file (fs : FS) (handle : FPath) : FS × Except HandleError Unit :=
  match fileName handle, pathExtension handle with
  | some name, some ext =>
    let dir := pjoin [] ext
    match create_dir_if_not_exists fs dir with
    | (fs2, Except.ok _) =>
      let destination := pjoin dir name
      move_file fs2 handle destination
    | (fs2, Except.error e) => (fs2, Except.error e)
  | _, _ => (fs, Except.error HandleError.unclassifiableFile)

/-- One backload iteration on a successfully read entry: handle it if it
is (still) a regular file, discarding any `handle_file` error. -/
def stepB (fs : FS) (m : String) : FS :=
  if fs.isFile [m] then (handle_file fs [m]).1 else fs

/-- The backload loop over the `read_dir` iterator.  Each item is the
result of reading one directory entry; a per-entry read failure is
propagated by the `path?` in the source, aborting the loop. -/
def backloadGo (fs : FS) : List (Except Unit String) → Except Unit FS
  | [] => Except.ok fs
  | Except.error _ :: _ => Except.error ()
  | Except.ok m :: rest => backloadGo (stepB fs m) rest

/-- The child name an entry contributes to a directory listing of the
target directory (only single-component paths are immediate children). -/
def childName (x : FPath × Entry) : Option String :=
  match x.1 with
  | [m] => some m
  | _ => none

/-- The names of the immediate children of the target directory, in entry
order (what a fault-free `read_dir` yields). -/
def FS.childrenOfTarget (fs : FS) : List String :=
  fs.entries.filterMap childName

/-- `FileWatcher::backload`'s scan when the directory listing succeeds and
no individual entry read faults. -/
def backloadScan (fs : FS) : Except Unit FS :=
  backloadGo fs (fs.childrenOfTarget.map Except.ok)

/-- A path string is absolute when it starts with a separator. -/
def isAbsolutePath (s : String) : Bool :=
  match s.toList with
  | [] => false
  | c :: _ => c == '/'

/-- `PathBuf::push` of a relative path onto a base. -/
def pushPath (h t : String) : String :=
  if h = "" then t
  else if h.toList.getLast? = some '/' then h ++ t
  else h ++ "/" ++ t

/-- `FileWatcher::expand_path`: absolute paths pass through unchanged;
relative paths are joined onto `HOME`; a missing `HOME` is an error
(`PathBuf::from_str` itself is infallible). -/
def expand_path (home : Option String) (target_dir : String) : Except Unit String :=
  if isAbsolutePath target_dir then Except.ok target_dir
  else
    match home with
    | none => Except.error ()
    | some h => Except.ok (pushPath h target_dir)

/-- Why a backload run ended fatally. -/
inductive FatalReason
  | listFailure
  | entryFailure
deriving DecidableEq

/-- Outcome of `FileWatcher::backload` as observed by the process. -/
inductive BackOutcome
  | exitConfig
  | fatal (r : FatalReason)
  | done (resolved : String) (fs : FS)
deriving DecidableEq

/-- `FileWatcher::backload` in full: expand the path (exiting the process
on failure, before any listing), list the directory (`listing` is the
outcome of `read_dir`, including possible per-entry faults), then scan. -/
def backloadWith (home : Option String) (target_dir : String) (fs : FS)
    (listing : Except Unit (List (Except Unit String))) : BackOutcome :=
  match expand_path home target_dir with
  | Except.error _ => BackOutcome.exitConfig
  | Except.ok resolved =>
    match listing with
    | Except.error _ => BackOutcome.fatal FatalReason.listFailure
    | Except.ok items =>
      match backloadGo fs items with
      | Except.error _ => BackOutcome.fatal FatalReason.entryFailure
      | Except.ok fs2 => BackOutcome.done resolved fs2

/-- The event kinds of the notify crate that matter to `handle_event`:
only `Create(CreateKind::File)` is acted on. -/
inductive EventKind
  | createFile
  | createFolder
  | createAny
  | modifyKind
  | removeKind
  | otherKind
deriving DecidableEq

/-- A filesystem event: a kind and the paths it carries. -/
structure Event where
  kind : EventKind
  paths : List FPath

/-- The per-path loop of `handle_event`: each path is handled in turn, a
failure is logged and skipped; the returned list records, in order, the
paths for which `handle_file` was invoked (the source logs one line per
such invocation). -/
def handlePaths (fs : FS) : List FPath → FS × List FPath
  | [] => (fs, [])
  | src :: rest =>
    let fs2 := (handle_file fs src).1
    let out := handlePaths fs2 rest
    (out.1, src :: out.2)

/-- `FileWatcher::handle_event`: dispatch on the event kind; file-creation
events get the per-path loop, everything else is logged and discarded;
both branches end in `Ok(())`. -/
def handle_event (fs : FS) (ev : Event) : Except Unit (FS × List FPath) :=
  match ev.kind with
  | EventKind.createFile => Except.ok (handlePaths fs ev.paths)
  | _ => Except.ok (fs, [])

/-- One item received from the watch channel: an event, or a
channel-level delivery error. -/
inductive ChannelItem
  | recv (ev : Event)
  | deliveryFault

/-- One iteration of the watch loop: a delivered event is dispatched (a
`handle_event` error would be logged and skipped); a delivery fault is
logged and skipped. -/
def runStep (fs : FS) : ChannelItem → FS
  | ChannelItem.recv ev =>
    match handle_event fs ev with
    | Except.ok out => out.1
    | Except.error _ => fs
  | ChannelItem.deliveryFault => fs

/-- The `for res in rx` loop of `FileWatcher::run`; the list is the finite
sequence of items delivered before the channel closes. -/
def runLoop (fs : FS) : List ChannelItem → FS
  | [] => fs
  | item :: rest => runLoop (runStep fs item) rest

/-- `FileWatcher::run`: watcher registration (its success passed in as
`regOk`), then the receive loop; returns `Ok` when the channel closes. -/
def runWatch (regOk : Bool) (fs : FS) (chan : List ChannelItem) : Except Unit FS :=
  if regOk then Except.ok (runLoop fs chan) else Except.error ()

/-- Well-formed filesystem state: each path bound at most once. -/
def FS.wf (fs : FS) : Prop :=
  (fs.entries.map Prod.fst).Nodup

/-! ## Basic lemmas about the filesystem state -/

theorem lookupEntries_removeKey (l : List (FPath × Entry)) (p q : FPath) :
    lookupEntries (removeKey l p) q = if q = p then none else lookupEntries l q := by
  induction l with
  | nil => by_cases h : q = p <;> simp [removeKey, lookupEntries, h]
  | cons x t ih =>
    obtain ⟨r, ent⟩ := x
    by_cases hpr : p = r
    · subst hpr
      by_cases hqp : q = p
      · subst hqp
        simp [removeKey, lookupEntries, ih]
      · simp [removeKey, lookupEntries, hqp, ih]
    · by_cases hqp : q = p <;> by_cases hqr : q = r <;>
        simp_all [removeKey, lookupEntries]

theorem FS.lookup_insertEntry (fs : FS) (p : FPath) (ent : Entry) (q : FPath) :
    (fs.insertEntry p ent).lookup q = if q = p then some ent else fs.lookup q := by
  by_cases h : q = p <;>
    simp [FS.insertEntry, FS.lookup, lookupEntries, lookupEntries_removeKey, h]

theorem FS.lookup_removeEntry (fs : FS) (p q : FPath) :
    (fs.removeEntry p).lookup q = if q = p then none else fs.lookup q := by
  simp [FS.removeEntry, FS.lookup, lookupEntries_removeKey]

theorem FS.isFile_iff (fs : FS) (p : FPath) :
    fs.isFile p = true ↔ fs.lookup p = some Entry.file := by
  simp [FS.isFile]

theorem FS.pathExists_false (fs : FS) (p : FPath) (h : fs.pathExists p = false) :
    p ≠ [] ∧ fs.lookup p = none := by
  simp [FS.pathExists, List.isEmpty_iff] at h
  exact ⟨h.1, h.2⟩

theorem FS.isDir_nil (fs : FS) : fs.isDir [] = true := by
  simp [FS.isDir, List.isEmpty_iff]

/-! ## Lemmas about extension extraction -/

theorem extSplit_none_no_dot (cs : List Char) (h : extSplit cs = none) : '.' ∉ cs := by
  induction cs with
  | nil => simp
  | cons c rest ih =>
    cases hrest : extSplit rest with
    | some e => simp [extSplit, hrest] at h
    | none =>
      simp only [extSplit, hrest] at h
      split at h
      · exact absurd h (by simp)
      next hc =>
        intro hmem
        rcases List.mem_cons.mp hmem with h1 | h2
        · exact hc h1.symm
        · exact ih hrest h2

theorem extSplit_some_no_dot (cs es : List Char) (h : extSplit cs = some es) : '.' ∉ es := by
  induction cs generalizing es with
  | nil => simp [extSplit] at h
  | cons c rest ih =>
    cases hrest : extSplit rest with
    | some e =>
      simp only [extSplit, hrest, Option.some.injEq] at h
      rw [h] at hrest
      exact ih es hrest
    | none =>
      simp only [extSplit, hrest] at h
      split at h
      · simp only [Option.some.injEq] at h
        exact h ▸ extSplit_none_no_dot rest hrest
      · exact absurd h (by simp)

theorem extSplit_some_dot (cs es : List Char) (h : extSplit cs = some es) : '.' ∈ cs := by
  induction cs generalizing es with
  | nil => simp [extSplit] at h
  | cons c rest ih =>
    cases hrest : extSplit rest with
    | some e => exact List.mem_cons_of_mem c (ih e hrest)
    | none =>
      simp only [extSplit, hrest] at h
      split at h
      next hc => exact hc ▸ List.mem_cons_self c rest
      · exact absurd h (by simp)

theorem extSplit_decomp (cs es : List Char) (h : extSplit cs = some es) :
    ∃ pre, cs = pre ++ '.' :: es := by
  induction cs generalizing es with
  | nil => simp [extSplit] at h
  | cons c rest ih =>
    cases hrest : extSplit rest with
    | some e =>
      simp only [extSplit, hrest, Option.some.injEq] at h
      rw [h] at hrest
      obtain ⟨pre, hp⟩ := ih es hrest
      exact ⟨c :: pre, by rw [hp]; rfl⟩
    | none =>
      simp only [extSplit, hrest] at h
      split at h
      next hc =>
        simp only [Option.some.injEq] at h
        exact ⟨[], by simp [hc, h]⟩
      · exact absurd h (by simp)

theorem rustExtension_facts (name ext : String) (h : rustExtension name = some ext) :
    name ≠ "" ∧ name ≠ ".." ∧ '.' ∈ name.toList ∧ '.' ∉ ext.toList := by
  unfold rustExtension at h
  split at h
  · exact absurd h (by simp)
  next hne =>
    obtain ⟨cs, hcs⟩ : ∃ cs, name.toList = cs := ⟨_, rfl⟩
    rw [hcs] at h
    cases cs with
    | nil => simp at h
    | cons c rest =>
      simp only [Option.map_eq_some'] at h
      obtain ⟨es, hes, hmk⟩ := h
      have hextL : ext.toList = es := by rw [← hmk]; rfl
      refine ⟨?_, hne, ?_, ?_⟩
      · intro hh
        subst hh
        rw [show ("" : String).toList = ([] : List Char) from rfl] at hcs
        exact List.noConfusion hcs
      · rw [hcs]
        exact List.mem_cons_of_mem c (extSplit_some_dot rest es hes)
      · rw [hextL]
        exact extSplit_some_no_dot rest es hes

theorem fileName_single (m : String) (h1 : m ≠ "..") (h2 : m ≠ "") :
    fileName [m] = some m := by
  simp [fileName, h1, h2]

theorem pathExtension_single (m : String) (h1 : m ≠ "..") (h2 : m ≠ "") :
    pathExtension [m] = rustExtension m := by
  simp [pathExtension, fileName_single m h1 h2]

/-! ## Characterizing a single `handle_file` call on a top-level entry -/

theorem create_exists_noop (fs : FS) (dir : FPath) (hex : fs.pathExists dir = true) :
    create_dir_if_not_exists fs dir = (fs, Except.ok ()) := by
  simp [create_dir_if_not_exists, hex]

theorem create_not_exists_creates (fs : FS) (k : String) (hne : fs.pathExists [k] = false) :
    create_dir_if_not_exists fs [k] = (fs.insertEntry [k] Entry.dir, Except.ok ()) := by
  have hp : parentOf [k] = ([] : FPath) := rfl
  simp [create_dir_if_not_exists, hne, FS.create_dir, hp, FS.isDir_nil]

/-- Everything a `handle_file` call on a top-level regular file can do to
the filesystem: nothing; create the bucket and fail to move; self-move
(empty extension); or move into the bucket (existing or just created). -/
theorem handle_file_single_cases (fs : FS) (m : String)
    (hm : fs.lookup [m] = some Entry.file) :
    (handle_file fs [m]).1 = fs
  ∨ (∃ k, rustExtension m = some k ∧ k ≠ "" ∧ fs.lookup [k] = none
      ∧ (handle_file fs [m]).1 = fs.insertEntry [k] Entry.dir)
  ∨ (rustExtension m = some ""
      ∧ (handle_file fs [m]).1 = (fs.removeEntry [m]).insertEntry [m] Entry.file)
  ∨ (∃ k fs2, rustExtension m = some k ∧ k ≠ ""
      ∧ (fs2 = fs ∨ (fs.lookup [k] = none ∧ fs2 = fs.insertEntry [k] Entry.dir))
      ∧ (handle_file fs [m]).1 = (fs2.removeEntry [m]).insertEntry [k, m] Entry.file) := by
  by_cases hdd : m = ".." ∨ m = ""
  · have hfn : fileName [m] = none := by simp [fileName, hdd]
    have hpe : pathExtension [m] = none := by simp [pathExtension, hfn]
    left
    simp [handle_file, hfn, hpe]
  · push_neg at hdd
    have hfn : fileName [m] = some m := fileName_single m hdd.1 hdd.2
    have hpe : pathExtension [m] = rustExtension m := pathExtension_single m hdd.1 hdd.2
    cases hre : rustExtension m with
    | none =>
      left
      simp [handle_file, hfn, hpe, hre]
    | some k =>
      have hpe2 : pathExtension [m] = some k := by rw [hpe, hre]
      by_cases hk : k = ""
      · subst hk
        right; right; left
        refine ⟨rfl, ?_⟩
        have hc : create_dir_if_not_exists fs (pjoin [] "") = (fs, Except.ok ()) := by
          simp [pjoin, create_dir_if_not_exists, FS.pathExists]
        have hdj : pjoin (pjoin [] "") m = [m] := by simp [pjoin, hdd.2]
        have hmv : move_file fs [m] [m]
            = ((fs.removeEntry [m]).insertEntry [m] Entry.file, Except.ok ()) := by
          simp [move_file, FS.isFile, hm, FS.rename, FS.isDir, parentOf]
        simp [handle_file, hfn, hpe2, hc, hdj, hmv]
      · have hdj1 : pjoin [] k = [k] := by simp [pjoin, hk]
        have hdj2 : pjoin [k] m = [k, m] := by simp [pjoin, hdd.2]
        by_cases hex : fs.pathExists [k] = true
        · have hc := create_exists_noop fs [k] hex
          by_cases hdir2 : fs.isDir [k, m] = true
          · left
            simp [handle_file, hfn, hpe2, hdj1, hc, hdj2, move_file, FS.isFile, hm,
              FS.rename, hdir2]
          · by_cases hpd : fs.isDir (parentOf [k, m]) = true
            · right; right; right
              refine ⟨k, fs, rfl, hk, Or.inl rfl, ?_⟩
              simp [handle_file, hfn, hpe2, hdj1, hc, hdj2, move_file, FS.isFile, hm,
                FS.rename, hdir2, hpd]
            · left
              simp [handle_file, hfn, hpe2, hdj1, hc, hdj2, move_file, FS.isFile, hm,
                FS.rename, hdir2, hpd]
        · have hexf : fs.pathExists [k] = false := by simpa using hex
          obtain ⟨-, hkn⟩ := FS.pathExists_false fs [k] hexf
          have hc := create_not_exists_creates fs k hexf
          have hmk : ([m] : FPath) ≠ [k] := by
            intro hh
            rw [hh, hkn] at hm
            exact Option.noConfusion hm
          have hm2 : (fs.insertEntry [k] Entry.dir).lookup [m] = some Entry.file := by
            rw [FS.lookup_insertEntry, if_neg hmk]
            exact hm
          by_cases hdir2 : (fs.insertEntry [k] Entry.dir).isDir [k, m] = true
          · right; left
            refine ⟨k, rfl, hk, hkn, ?_⟩
            simp [handle_file, hfn, hpe2, hdj1, hc, hdj2, move_file, FS.isFile, hm2,
              FS.rename, hdir2]
          · have hpd : (fs.insertEntry [k] Entry.dir).isDir (parentOf [k, m]) = true := by
              have hpar : parentOf [k, m] = ([k] : FPath) := rfl
              rw [hpar]
              simp [FS.isDir, FS.lookup_insertEntry]
            right; right; right
            refine ⟨k, fs.insertEntry [k] Entry.dir, rfl, hk, Or.inr ⟨hkn, rfl⟩, ?_⟩
            simp [handle_file, hfn, hpe2, hdj1, hc, hdj2, move_file, FS.isFile, hm2,
              FS.rename, hdir2, hpd]

/-! ## The backload invariant for claim C1 -/

/-- Invariant before the file `n` (with extension `e`) is handled:
`n` is still a top-level regular file, the bucket path is not occupied by
a regular file, and the destination path is not occupied by a directory. -/
def InvC1 (n e : String) (fs : FS) : Prop :=
  fs.lookup [n] = some Entry.file ∧ fs.lookup [e] ≠ some Entry.file ∧
    fs.lookup [e, n] ≠ some Entry.dir

/-- State after `n` was moved into its bucket. -/
def PostC1 (n e : String) (fs : FS) : Prop :=
  fs.lookup [e, n] = some Entry.file ∧ fs.lookup [n] = none

theorem stepB_of_not_file (fs : FS) (m : String) (h : ¬ fs.isFile [m] = true) :
    stepB fs m = fs := by
  simp [stepB, h]

theorem stepB_of_file (fs : FS) (m : String) (h : fs.isFile [m] = true) :
    stepB fs m = (handle_file fs [m]).1 := by
  simp [stepB, h]

theorem stepB_preserves_inv (n e m : String) (hmn : m ≠ n) (fs : FS)
    (h : InvC1 n e fs) : InvC1 n e (stepB fs m) := by
  by_cases hf : fs.isFile [m] = true
  · have hm : fs.lookup [m] = some Entry.file := by
      simpa [FS.isFile] using hf
    have hme : m ≠ e := by
      intro hh
      exact h.2.1 (hh ▸ hm)
    have hnm : n ≠ m := Ne.symm hmn
    have hem : e ≠ m := Ne.symm hme
    rw [stepB_of_file fs m hf]
    rcases handle_file_single_cases fs m hm with
      h0 | ⟨k, _, _, hk3, hk4⟩ | ⟨_, hk2⟩ | ⟨k, fs2, _, _, hk3, hk4⟩
    · rw [h0]; exact h
    · rw [hk4]
      have hkn : ([n] : FPath) ≠ [k] := by
        intro hh
        have hk0 : fs.lookup [n] = none := by rw [hh]; exact hk3
        exact Option.noConfusion (hk0 ▸ h.1)
      refine ⟨?_, ?_, ?_⟩
      · rw [FS.lookup_insertEntry, if_neg hkn]
        exact h.1
      · rw [FS.lookup_insertEntry]
        by_cases hek : ([e] : FPath) = [k]
        · rw [if_pos hek]; simp
        · rw [if_neg hek]; exact h.2.1
      · rw [FS.lookup_insertEntry, if_neg (by simp)]
        exact h.2.2
    · rw [hk2]
      refine ⟨?_, ?_, ?_⟩
      · rw [FS.lookup_insertEntry]
        by_cases hnmq : ([n] : FPath) = [m]
        · rw [if_pos hnmq]
        · rw [if_neg hnmq, FS.lookup_removeEntry, if_neg hnmq]
          exact h.1
      · rw [FS.lookup_insertEntry, if_neg (by simp [hem]),
          FS.lookup_removeEntry, if_neg (by simp [hem])]
        exact h.2.1
      · rw [FS.lookup_insertEntry, if_neg (by simp),
          FS.lookup_removeEntry, if_neg (by simp)]
        exact h.2.2
    · rw [hk4]
      refine ⟨?_, ?_, ?_⟩
      · rw [FS.lookup_insertEntry, if_neg (by simp),
          FS.lookup_removeEntry, if_neg (by simp [hnm])]
        rcases hk3 with h2 | ⟨hnone, h2⟩
        · rw [h2]; exact h.1
        · have hkn : ([n] : FPath) ≠ [k] := by
            intro hh
            have hk0 : fs.lookup [n] = none := by rw [hh]; exact hnone
            exact Option.noConfusion (hk0 ▸ h.1)
          rw [h2, FS.lookup_insertEntry, if_neg hkn]
          exact h.1
      · rw [FS.lookup_insertEntry, if_neg (by simp),
          FS.lookup_removeEntry, if_neg (by simp [hem])]
        rcases hk3 with h2 | ⟨_, h2⟩
        · rw [h2]; exact h.2.1
        · rw [h2, FS.lookup_insertEntry]
          by_cases hek : ([e] : FPath) = [k]
          · rw [if_pos hek]; simp
          · rw [if_neg hek]; exact h.2.1
      · rw [FS.lookup_insertEntry, if_neg (by simp [hnm]),
          FS.lookup_removeEntry, if_neg (by simp)]
        rcases hk3 with h2 | ⟨_, h2⟩
        · rw [h2]; exact h.2.2
        · rw [h2, FS.lookup_insertEntry, if_neg (by simp)]
          exact h.2.2
  · rw [stepB_of_not_file fs m hf]
    exact h

theorem stepB_preserves_post (n e m : String) (hmn : m ≠ n)
    (hdot : '.' ∈ n.toList) (fs : FS)
    (h : PostC1 n e fs) : PostC1 n e (stepB fs m) := by
  by_cases hf : fs.isFile [m] = true
  · have hm : fs.lookup [m] = some Entry.file := by
      simpa [FS.isFile] using hf
    have hnm : n ≠ m := Ne.symm hmn
    rw [stepB_of_file fs m hf]
    rcases handle_file_single_cases fs m hm with
      h0 | ⟨k, hk1, _, _, hk4⟩ | ⟨_, hk2⟩ | ⟨k, fs2, hk1, _, hk3, hk4⟩
    · rw [h0]; exact h
    · rw [hk4]
      have hkn : ([n] : FPath) ≠ [k] := by
        intro hh
        have hk0 : k = n := by injection hh with h1 _; exact h1.symm
        have := (rustExtension_facts m k hk1).2.2.2
        rw [hk0] at this
        exact this hdot
      refine ⟨?_, ?_⟩
      · rw [FS.lookup_insertEntry, if_neg (by simp)]
        exact h.1
      · rw [FS.lookup_insertEntry, if_neg (Ne.symm (Ne.symm hkn))]
        exact h.2
    · rw [hk2]
      refine ⟨?_, ?_⟩
      · rw [FS.lookup_insertEntry, if_neg (by simp),
          FS.lookup_removeEntry, if_neg (by simp)]
        exact h.1
      · rw [FS.lookup_insertEntry, if_neg (by simp [hnm]),
          FS.lookup_removeEntry, if_neg (by simp [hnm])]
        exact h.2
    · rw [hk4]
      have hkn : ([n] : FPath) ≠ [k] := by
        intro hh
        have hk0 : k = n := by injection hh with h1 _; exact h1.symm
        have := (rustExtension_facts m k hk1).2.2.2
        rw [hk0] at this
        exact this hdot
      have hlk2 : ∀ q : FPath, q ≠ [k] → fs2.lookup q = fs.lookup q := by
        intro q hq
        rcases hk3 with h2 | ⟨_, h2⟩
        · rw [h2]
        · rw [h2, FS.lookup_insertEntry, if_neg hq]
      refine ⟨?_, ?_⟩
      · rw [FS.lookup_insertEntry, if_neg (by simp [hnm]),
          FS.lookup_removeEntry, if_neg (by simp),
          hlk2 [e, n] (by simp)]
        exact h.1
      · rw [FS.lookup_insertEntry, if_neg (by simp),
          FS.lookup_removeEntry, if_neg (by simp [hnm]),
          hlk2 [n] hkn]
        exact h.2
  · rw [stepB_of_not_file fs m hf]
    exact h

theorem stepB_moves (n e : String) (hext : rustExtension n = some e) (hne : e ≠ "")
    (fs : FS) (h : InvC1 n e fs) : PostC1 n e (stepB fs n) := by
  obtain ⟨hn1, hn2, hdot, hdote⟩ := rustExtension_facts n e hext
  have hen : e ≠ n := by
    intro hh
    rw [hh] at hdote
    exact hdote hdot
  have hf : fs.isFile [n] = true := by simp [FS.isFile, h.1]
  rw [stepB_of_file fs n hf]
  have hfn : fileName [n] = some n := fileName_single n hn2 hn1
  have hpe2 : pathExtension [n] = some e := by
    rw [pathExtension_single n hn2 hn1, hext]
  have hdj1 : pjoin [] e = [e] := by simp [pjoin, hne]
  have hdj2 : pjoin [e] n = [e, n] := by simp [pjoin, hn1]
  cases hle : fs.lookup [e] with
  | none =>
    have hexf : fs.pathExists [e] = false := by simp [FS.pathExists, hle]
    have hc := create_not_exists_creates fs e hexf
    have hen2 : ([n] : FPath) ≠ [e] := by simp [Ne.symm hen]
    have hm2 : (fs.insertEntry [e] Entry.dir).lookup [n] = some Entry.file := by
      rw [FS.lookup_insertEntry, if_neg hen2]
      exact h.1
    have hisf2 : (fs.insertEntry [e] Entry.dir).isFile [n] = true := by
      simp [FS.isFile, hm2]
    have hl2 : (fs.insertEntry [e] Entry.dir).lookup [e, n] = fs.lookup [e, n] := by
      rw [FS.lookup_insertEntry, if_neg (by simp)]
    have hdir2 : (fs.insertEntry [e] Entry.dir).isDir [e, n] = false := by
      simp [FS.isDir, hl2]
      exact h.2.2
    have hpd : (fs.insertEntry [e] Entry.dir).isDir (parentOf [e, n]) = true := by
      have hpar : parentOf [e, n] = ([e] : FPath) := rfl
      rw [hpar]
      simp [FS.isDir, FS.lookup_insertEntry]
    have hend : (handle_file fs [n]).1
        = ((fs.insertEntry [e] Entry.dir).removeEntry [n]).insertEntry [e, n] Entry.file := by
      simp [handle_file, hfn, hpe2, hdj1, hc, hdj2, move_file, hisf2, FS.rename,
        hdir2, hpd]
    rw [hend]
    refine ⟨?_, ?_⟩
    · rw [FS.lookup_insertEntry, if_pos rfl]
    · rw [FS.lookup_insertEntry, if_neg (by simp), FS.lookup_removeEntry, if_pos rfl]
  | some ent =>
    cases ent with
    | file => exact absurd hle h.2.1
    | dir =>
      have hex : fs.pathExists [e] = true := by simp [FS.pathExists, hle]
      have hc := create_exists_noop fs [e] hex
      have hdir2 : fs.isDir [e, n] = false := by
        simp [FS.isDir]
        exact h.2.2
      have hpd : fs.isDir (parentOf [e, n]) = true := by
        have hpar : parentOf [e, n] = ([e] : FPath) := rfl
        rw [hpar]
        simp [FS.isDir, hle]
      have hend : (handle_file fs [n]).1
          = (fs.removeEntry [n]).insertEntry [e, n] Entry.file := by
        simp [handle_file, hfn, hpe2, hdj1, hc, hdj2, move_file, FS.isFile, h.1,
          FS.rename, hdir2, hpd]
      rw [hend]
      refine ⟨?_, ?_⟩
      · rw [FS.lookup_insertEntry, if_pos rfl]
      · rw [FS.lookup_insertEntry, if_neg (by simp), FS.lookup_removeEntry, if_pos rfl]

/-! ## Assembling the backload run -/

theorem backloadGo_map_ok (l : List String) (fs : FS) :
    backloadGo fs (l.map Except.ok) = Except.ok (l.foldl stepB fs) := by
  induction l generalizing fs with
  | nil => rfl
  | cons m rest ih => simp [backloadGo, List.foldl_cons, ih]

theorem foldl_stepB_inv (n e : String) (l : List String) (fs : FS)
    (hl : ∀ x ∈ l, x ≠ n) (h : InvC1 n e fs) : InvC1 n e (l.foldl stepB fs) := by
  induction l generalizing fs with
  | nil => exact h
  | cons m rest ih =>
    rw [List.foldl_cons]
    exact ih (stepB fs m) (fun x hx => hl x (List.mem_cons_of_mem m hx))
      (stepB_preserves_inv n e m (hl m (List.mem_cons_self m rest)) fs h)

theorem foldl_stepB_post (n e : String) (hdot : '.' ∈ n.toList) (l : List String)
    (fs : FS) (hl : ∀ x ∈ l, x ≠ n) (h : PostC1 n e fs) :
    PostC1 n e (l.foldl stepB fs) := by
  induction l generalizing fs with
  | nil => exact h
  | cons m rest ih =>
    rw [List.foldl_cons]
    exact ih (stepB fs m) (fun x hx => hl x (List.mem_cons_of_mem m hx))
      (stepB_preserves_post n e m (hl m (List.mem_cons_self m rest)) hdot fs h)

theorem lookupEntries_mem (l : List (FPath × Entry)) (p : FPath) (ent : Entry)
    (h : lookupEntries l p = some ent) : (p, ent) ∈ l := by
  induction l with
  | nil => simp [lookupEntries] at h
  | cons x rest ih =>
    obtain ⟨q, ent'⟩ := x
    by_cases hpq : p = q
    · simp only [lookupEntries, if_pos hpq, Option.some.injEq] at h
      exact List.mem_cons.mpr (Or.inl (by rw [hpq, ← h]))
    · simp only [lookupEntries, if_neg hpq] at h
      exact List.mem_cons_of_mem _ (ih h)

theorem mem_childrenOfTarget (fs : FS) (n : String) (ent : Entry)
    (h : fs.lookup [n] = some ent) : n ∈ fs.childrenOfTarget := by
  have hmem := lookupEntries_mem fs.entries [n] ent h
  exact List.mem_filterMap.mpr ⟨([n], ent), hmem, rfl⟩

theorem childName_eq_some (x : FPath × Entry) (m : String)
    (h : childName x = some m) : x.1 = [m] := by
  obtain ⟨p, ent⟩ := x
  rcases p with _ | ⟨a, tail⟩
  · simp [childName] at h
  · rcases tail with _ | ⟨b, t2⟩
    · simp only [childName, Option.some.injEq] at h
      rw [h]
    · simp [childName] at h

theorem filterMap_childName_nodup (l : List (FPath × Entry))
    (h : (l.map Prod.fst).Nodup) : (l.filterMap childName).Nodup := by
  induction l with
  | nil => simp
  | cons x rest ih =>
    rw [List.map_cons, List.nodup_cons] at h
    rw [List.filterMap_cons]
    cases hc : childName x with
    | none => exact ih h.2
    | some m =>
      rw [List.nodup_cons]
      refine ⟨?_, ih h.2⟩
      intro hmem
      obtain ⟨y, hy, hy2⟩ := List.mem_filterMap.mp hmem
      have h1 := childName_eq_some y m hy2
      have h2 := childName_eq_some x m hc
      have h3 : y.1 ∈ rest.map Prod.fst := List.mem_map_of_mem Prod.fst hy
      rw [h1, ← h2] at h3
      exact h.1 h3

/-! ## Claim C1 -/

/-- The startup state refuting claim C1 as stated: `txt` is a top-level
regular file (and so blocks the `txt` bucket), next to `notes.txt`; and a
previous-run leftover where the destination `txt2/notes.txt2` is itself a
directory, next to `notes.txt2`. -/
def fsC1cx : FS :=
  ⟨[(["txt"], Entry.file), (["notes.txt"], Entry.file),
    (["txt2"], Entry.dir), (["txt2", "notes.txt2"], Entry.dir),
    (["notes.txt2"], Entry.file)]⟩

/-- Claim C1, counterexample: `notes.txt` and `notes.txt2` are regular
files with non-empty extensions present at startup, yet after a completed
backload neither is at `<ext>/<name>`; both are still at their original
paths, because the `txt` bucket path is occupied by a regular file and the
destination `txt2/notes.txt2` is occupied by a directory. -/
theorem c1_counterexample :
    backloadScan fsC1cx = Except.ok fsC1cx
    ∧ rustExtension "notes.txt" = some "txt"
    ∧ rustExtension "notes.txt2" = some "txt2"
    ∧ fsC1cx.lookup ["notes.txt"] = some Entry.file
    ∧ fsC1cx.lookup ["notes.txt2"] = some Entry.file
    ∧ fsC1cx.lookup ["txt", "notes.txt"] ≠ some Entry.file
    ∧ fsC1cx.lookup ["txt2", "notes.txt2"] ≠ some Entry.file := by
  refine ⟨by decide, by decide, by decide, by decide, by decide, by decide, by decide⟩

/-- Claim C1 (amended): for every regular file present in the target
directory at startup whose path has a file name and a non-empty extension,
provided the bucket path `TargetDirectory/<extension>` is not occupied by
a regular file and the destination `TargetDirectory/<extension>/<name>`
is not occupied by a directory, after backload completes the file exists
at `TargetDirectory/<extension>/<name>` and no longer exists at its
original path. -/
theorem c1_amended_backload_moves (fs : FS) (hwf : fs.wf) (n e : String)
    (hfile : fs.lookup [n] = some Entry.file)
    (hext : rustExtension n = some e) (hne : e ≠ "")
    (hbucket : fs.lookup [e] ≠ some Entry.file)
    (hdest : fs.lookup [e, n] ≠ some Entry.dir) :
    ∃ fs', backloadScan fs = Except.ok fs' ∧
      fs'.lookup [e, n] = some Entry.file ∧ fs'.lookup [n] = none := by
  have hdot := (rustExtension_facts n e hext).2.2.1
  have hmem : n ∈ fs.childrenOfTarget := mem_childrenOfTarget fs n Entry.file hfile
  obtain ⟨s, t, hst⟩ := List.append_of_mem hmem
  have hnd : fs.childrenOfTarget.Nodup := filterMap_childName_nodup fs.entries hwf
  rw [hst] at hnd
  have hnmem : n ∉ s ++ t := (List.nodup_cons.mp (List.nodup_middle.mp hnd)).1
  have hns : ∀ x ∈ s, x ≠ n := fun x hx hh => hnmem (hh ▸ List.mem_append_left t hx)
  have hnt : ∀ x ∈ t, x ≠ n := fun x hx hh => hnmem (hh ▸ List.mem_append_right s hx)
  refine ⟨fs.childrenOfTarget.foldl stepB fs, ?_, ?_⟩
  · rw [backloadScan, backloadGo_map_ok]
  · rw [hst, List.foldl_append, List.foldl_cons]
    have hinv : InvC1 n e (s.foldl stepB fs) :=
      foldl_stepB_inv n e s fs hns ⟨hfile, hbucket, hdest⟩
    have hpost : PostC1 n e (stepB (s.foldl stepB fs) n) :=
      stepB_moves n e hext hne _ hinv
    exact foldl_stepB_post n e hdot t _ hnt hpost

/-- Witness for claim C1's amended theorem at a concrete startup state. -/
theorem c1_witness :
    (⟨[(["report.pdf"], Entry.file)]⟩ : FS).wf
    ∧ (∃ fs', backloadScan ⟨[(["report.pdf"], Entry.file)]⟩ = Except.ok fs' ∧
        fs'.lookup ["pdf", "report.pdf"] = some Entry.file ∧
        fs'.lookup ["report.pdf"] = none) :=
  ⟨by unfold FS.wf; decide,
    c1_amended_backload_moves ⟨[(["report.pdf"], Entry.file)]⟩ (by unfold FS.wf; decide)
      "report.pdf" "pdf" (by decide) (by decide) (by decide) (by decide) (by decide)⟩

/-! ## Claim C2 -/

/-- Claim C2, counterexample: with the bucket directory absent at the
existence check but present by the time `create_dir` runs (the race the
claim says must be tolerated), the operation reports a directory-create
error, not success. -/
theorem c2_counterexample :
    create_dir_if_not_exists_raced ⟨[]⟩ ⟨[(["txt"], Entry.dir)]⟩ ["txt"]
      = (⟨[(["txt"], Entry.dir)]⟩, Except.error HandleError.directoryCreateError) := by
  decide

/-- Claim C2 (amended): ensuring a bucket directory is idempotent — if the
destination already exists at the existence check, the operation returns
success without mutating anything; but the check-then-create race is not
tolerated: if the directory comes to exist between the check and the
creation attempt, the already-exists failure of `create_dir` is propagated
as a directory-create error.  The sequential operation is the raced one
with both observations equal. -/
theorem c2_amended_create_dir :
    (∀ (fs : FS) (dir : FPath), fs.pathExists dir = true →
      create_dir_if_not_exists fs dir = (fs, Except.ok ()))
    ∧ (∀ (fsCheck fsCreate : FS) (dir : FPath),
      fsCheck.pathExists dir = false → fsCreate.pathExists dir = true →
      create_dir_if_not_exists_raced fsCheck fsCreate dir
        = (fsCreate, Except.error HandleError.directoryCreateError))
    ∧ (∀ (fs : FS) (dir : FPath),
      create_dir_if_not_exists fs dir = create_dir_if_not_exists_raced fs fs dir) := by
  refine ⟨?_, ?_, ?_⟩
  · intro fs dir h
    simp [create_dir_if_not_exists, h]
  · intro fsCheck fsCreate dir h1 h2
    simp [create_dir_if_not_exists_raced, h1, FS.create_dir, h2]
  · intro fs dir
    rfl

/-- Witness for claim C2's amended theorem at concrete states. -/
theorem c2_witness :
    (⟨[(["txt"], Entry.dir)]⟩ : FS).pathExists ["txt"] = true
    ∧ create_dir_if_not_exists ⟨[(["txt"], Entry.dir)]⟩ ["txt"]
        = (⟨[(["txt"], Entry.dir)]⟩, Except.ok ())
    ∧ (⟨[]⟩ : FS).pathExists ["png"] = false
    ∧ (⟨[(["png"], Entry.dir)]⟩ : FS).pathExists ["png"] = true
    ∧ create_dir_if_not_exists_raced ⟨[]⟩ ⟨[(["png"], Entry.dir)]⟩ ["png"]
        = (⟨[(["png"], Entry.dir)]⟩, Except.error HandleError.directoryCreateError) :=
  ⟨by decide,
   c2_amended_create_dir.1 ⟨[(["txt"], Entry.dir)]⟩ ["txt"] (by decide),
   by decide, by decide,
   c2_amended_create_dir.2.1 ⟨[]⟩ ⟨[(["png"], Entry.dir)]⟩ ["png"] (by decide) (by decide)⟩

/-! ## Claim C3 -/

/-- A healthy startup state with one classifiable regular file. -/
def fsC3 : FS := ⟨[(["a.txt"], Entry.file)]⟩

/-- Claim C3, counterexample: a failure reading one individual directory
entry is not caught — it aborts the whole scan: with a faulty first entry
followed by the healthy regular file `a.txt`, backload returns a fatal
error and the remaining entry is never handled. -/
theorem c3_counterexample :
    backloadGo fsC3 [Except.error (), Except.ok "a.txt"] = Except.error ()
    ∧ fsC3.lookup ["a.txt"] = some Entry.file :=
  ⟨rfl, by decide⟩

/-- Claim C3 (amended): a `handle_file` failure on an entry is caught and
the scan continues with the remaining entries; but backload returns a
fatal error both when listing the target directory fails and when reading
any individual directory entry fails. -/
theorem c3_amended_backload_isolation :
    (∀ (fs : FS) (m : String) (rest : List (Except Unit String)),
      backloadGo fs (Except.ok m :: rest) = backloadGo (stepB fs m) rest)
    ∧ (∀ (fs : FS) (rest : List (Except Unit String)),
      backloadGo fs (Except.error () :: rest) = Except.error ())
    ∧ (∀ (home : Option String) (t r : String) (fs : FS),
      expand_path home t = Except.ok r →
      backloadWith home t fs (Except.error ())
        = BackOutcome.fatal FatalReason.listFailure) := by
  refine ⟨?_, ?_, ?_⟩
  · intro fs m rest
    rfl
  · intro fs rest
    rfl
  · intro home t r fs h
    simp [backloadWith, h]

/-- Witness for claim C3's amended theorem at concrete inputs. -/
theorem c3_witness :
    backloadGo fsC3 [Except.ok "a.txt"] = backloadGo (stepB fsC3 "a.txt") []
    ∧ backloadGo fsC3 [Except.error ()] = Except.error ()
    ∧ expand_path none "/w" = Except.ok "/w"
    ∧ backloadWith none "/w" fsC3 (Except.error ())
        = BackOutcome.fatal FatalReason.listFailure :=
  ⟨c3_amended_backload_isolation.1 fsC3 "a.txt" [],
   c3_amended_backload_isolation.2.1 fsC3 [],
   by decide,
   c3_amended_backload_isolation.2.2 none "/w" "/w" fsC3 (by decide)⟩

/-! ## Claim C4 -/

/-- Claim C4: for a candidate whose source is not a regular file at the
re-confirmation immediately before the move, `move_file` performs no
rename and no other mutation and returns success. -/
theorem c4_move_skips_nonfile (fs : FS) (src dest : FPath)
    (h : fs.isFile src = false) : move_file fs src dest = (fs, Except.ok ()) := by
  simp [move_file, h]

/-- Witness for claim C4 on a path that designates a directory. -/
theorem c4_witness :
    (⟨[(["d"], Entry.dir)]⟩ : FS).isFile ["d"] = false
    ∧ move_file ⟨[(["d"], Entry.dir)]⟩ ["d"] ["x", "d"]
        = (⟨[(["d"], Entry.dir)]⟩, Except.ok ()) :=
  ⟨by decide, c4_move_skips_nonfile ⟨[(["d"], Entry.dir)]⟩ ["d"] ["x", "d"] (by decide)⟩

/-! ## Claim C5 -/

/-- Claim C5: a candidate path lacking a file name or lacking an extension
makes `handle_file` fail with the unclassifiable-file error, with no
filesystem mutation of any kind. -/
theorem c5_unclassifiable (fs : FS) (p : FPath)
    (h : fileName p = none ∨ pathExtension p = none) :
    handle_file fs p = (fs, Except.error HandleError.unclassifiableFile) := by
  rcases h with h | h
  · have hpe : pathExtension p = none := by simp [pathExtension, h]
    simp [handle_file, h, hpe]
  · cases hfn : fileName p with
    | none => simp [handle_file, hfn, h]
    | some name => simp [handle_file, hfn, h]

/-- Witness for claim C5: the extensionless file `archive` is rejected
and the filesystem is untouched. -/
theorem c5_witness :
    (fileName ["archive"] = none ∨ pathExtension ["archive"] = none)
    ∧ handle_file ⟨[(["archive"], Entry.file)]⟩ ["archive"]
        = (⟨[(["archive"], Entry.file)]⟩, Except.error HandleError.unclassifiableFile) :=
  ⟨Or.inr (by decide),
   c5_unclassifiable ⟨[(["archive"], Entry.file)]⟩ ["archive"] (Or.inr (by decide))⟩

/-! ## Claim C6 -/

theorem takeWhile_append_stop (p : Char → Bool) (l1 l2 : List Char) (x : Char)
    (h1 : ∀ y ∈ l1, p y = true) (h2 : p x = false) :
    (l1 ++ x :: l2).takeWhile p = l1 := by
  induction l1 with
  | nil => simp [List.takeWhile, h2]
  | cons a t ih =>
    have ha : p a = true := h1 a (List.mem_cons_self a t)
    simp only [List.cons_append, List.takeWhile, ha]
    exact congrArg (List.cons a) (ih fun y hy => h1 y (List.mem_cons_of_mem a hy))

theorem rustExtension_spec_agree (name ext : String)
    (h : rustExtension name = some ext) :
    specSubstringAfterLastDot name = some ext := by
  have hdot := (rustExtension_facts name ext h).2.2.1
  unfold rustExtension at h
  split at h
  · exact absurd h (by simp)
  · obtain ⟨cs, hcs⟩ : ∃ cs, name.toList = cs := ⟨_, rfl⟩
    rw [hcs] at h
    cases cs with
    | nil => simp at h
    | cons c rest =>
      simp only [Option.map_eq_some'] at h
      obtain ⟨es, hes, hmk⟩ := h
      obtain ⟨pre, hp⟩ := extSplit_decomp rest es hes
      have hnes : '.' ∉ es := extSplit_some_no_dot rest es hes
      have hfull : name.toList = (c :: pre) ++ '.' :: es := by
        rw [hcs, hp]
        rfl
      unfold specSubstringAfterLastDot
      rw [if_pos hdot, hfull]
      have hrev : ((c :: pre) ++ '.' :: es).reverse
          = es.reverse ++ '.' :: (c :: pre).reverse := by
        simp
      rw [hrev, takeWhile_append_stop _ es.reverse _ '.'
        (fun y hy => by
          simp only [bne_iff_ne, ne_eq]
          intro hh
          exact hnes (hh ▸ List.mem_reverse.mp hy))
        (by simp)]
      rw [List.reverse_reverse, hmk]

theorem create_ok_cases (fs : FS) (dir : FPath) (fs2 : FS)
    (h : create_dir_if_not_exists fs dir = (fs2, Except.ok ())) :
    fs2 = fs ∨ (fs.lookup dir = none ∧ fs2 = fs.insertEntry dir Entry.dir) := by
  by_cases hex : fs.pathExists dir = true
  · rw [create_exists_noop fs dir hex] at h
    exact Or.inl (Prod.ext_iff.mp h).1.symm
  · have hexf : fs.pathExists dir = false := by simpa using hex
    obtain ⟨-, hnone⟩ := FS.pathExists_false fs dir hexf
    right
    refine ⟨hnone, ?_⟩
    by_cases hpd : fs.isDir (parentOf dir) = true
    · simp [create_dir_if_not_exists, FS.create_dir, hexf, hpd] at h
      exact h.symm
    · simp [create_dir_if_not_exists, FS.create_dir, hexf, hpd] at h

theorem rename_ok_shape (fs : FS) (src dest : FPath) (fs3 : FS)
    (h : fs.rename src dest = (fs3, Except.ok ())) :
    fs3 = (fs.removeEntry src).insertEntry dest Entry.file := by
  unfold FS.rename at h
  by_cases h1 : fs.isFile src = true
  · by_cases h2 : fs.isDir dest = true
    · simp [h1, h2] at h
    · by_cases h3 : fs.isDir (parentOf dest) = true
      · simp [h1, h2, h3] at h
        exact h.symm
      · simp [h1, h2, h3] at h
  · simp [h1] at h

/-- Claim C6: the destination subdirectory's name is the exact,
case-preserved extension string — equal, whenever the code classifies the
file, to the spec's "substring of the file name after the last dot" — and
a successfully handled regular file ends up, under its full original
name, inside that subdirectory. -/
theorem c6_bucket_exact :
    (∀ (name ext : String), rustExtension name = some ext →
      specSubstringAfterLastDot name = some ext)
    ∧ (∀ (fs : FS) (p : FPath) (name ext : String),
      fileName p = some name → pathExtension p = some ext →
      fs.isFile p = true → (handle_file fs p).2 = Except.ok () →
      ((handle_file fs p).1).lookup (pjoin (pjoin [] ext) name) = some Entry.file) := by
  constructor
  · exact rustExtension_spec_agree
  · intro fs p name ext hfn hpe hisf hok
    have hl : fs.lookup p = some Entry.file := by simpa [FS.isFile] using hisf
    cases hc : create_dir_if_not_exists fs (pjoin [] ext) with
    | mk fs2 r =>
      cases r with
      | error e =>
        have hbad : (handle_file fs p).2 = Except.error e := by
          simp [handle_file, hfn, hpe, hc]
        rw [hbad] at hok
        exact Except.noConfusion hok
      | ok u =>
        cases u
        have hmf : handle_file fs p = move_file fs2 p (pjoin (pjoin [] ext) name) := by
          simp [handle_file, hfn, hpe, hc]
        have hp2 : fs2.lookup p = some Entry.file := by
          rcases create_ok_cases fs (pjoin [] ext) fs2 hc with h2 | ⟨hnone, h2⟩
          · rw [h2]; exact hl
          · have hpd : p ≠ pjoin [] ext := by
              intro hh
              rw [hh, hnone] at hl
              exact Option.noConfusion hl
            rw [h2, FS.lookup_insertEntry, if_neg hpd]
            exact hl
        have hisf2 : fs2.isFile p = true := by simp [FS.isFile, hp2]
        rw [hmf] at hok ⊢
        cases hr : fs2.rename p (pjoin (pjoin [] ext) name) with
        | mk fs3 rr =>
          cases rr with
          | error e2 =>
            have hbad : (move_file fs2 p (pjoin (pjoin [] ext) name)).2
                = Except.error HandleError.moveError := by
              simp [move_file, hisf2, hr]
            rw [hbad] at hok
            exact Except.noConfusion hok
          | ok u2 =>
            cases u2
            have hshape := rename_ok_shape fs2 p (pjoin (pjoin [] ext) name) fs3 hr
            have hfst : (move_file fs2 p (pjoin (pjoin [] ext) name)).1 = fs3 := by
              simp [move_file, hisf2, hr]
            rw [hfst, hshape, FS.lookup_insertEntry, if_pos rfl]

/-- Witness for claim C6: `photo.PNG` keeps its case: the bucket is
exactly `PNG` and the file lands at `PNG/photo.PNG` under its full name. -/
theorem c6_witness :
    rustExtension "photo.PNG" = some "PNG"
    ∧ specSubstringAfterLastDot "photo.PNG" = some "PNG"
    ∧ fileName ["photo.PNG"] = some "photo.PNG"
    ∧ pathExtension ["photo.PNG"] = some "PNG"
    ∧ (⟨[(["photo.PNG"], Entry.file)]⟩ : FS).isFile ["photo.PNG"] = true
    ∧ (handle_file ⟨[(["photo.PNG"], Entry.file)]⟩ ["photo.PNG"]).2 = Except.ok ()
    ∧ ((handle_file ⟨[(["photo.PNG"], Entry.file)]⟩ ["photo.PNG"]).1).lookup
        (pjoin (pjoin [] "PNG") "photo.PNG") = some Entry.file :=
  ⟨by decide,
   c6_bucket_exact.1 "photo.PNG" "PNG" (by decide),
   by decide, by decide, by decide, by decide,
   c6_bucket_exact.2 ⟨[(["photo.PNG"], Entry.file)]⟩ ["photo.PNG"] "photo.PNG" "PNG"
     (by decide) (by decide) (by decide) (by decide)⟩

/-! ## Claims C7, C8, C10 -/

/-- Claim C7: `handle_event` invokes the classifier exactly once per path
carried by the event precisely when the event kind is file-created (the
returned trace of invoked paths is the whole path list, so a failure on
one path never suppresses the next); any other kind is discarded with no
invocation and no filesystem mutation. -/
theorem c7_dispatch :
    (∀ (fs : FS) (ev : Event),
      handle_event fs ev = Except.ok
        (if ev.kind = EventKind.createFile then handlePaths fs ev.paths else (fs, [])))
    ∧ (∀ (fs : FS) (ps : List FPath), (handlePaths fs ps).2 = ps) := by
  constructor
  · intro fs ev
    cases hk : ev.kind <;> simp [handle_event, hk]
  · intro fs ps
    induction ps generalizing fs with
    | nil => rfl
    | cons p rest ih => simp [handlePaths, ih]

theorem runLoop_eq_foldl (chan : List ChannelItem) (fs : FS) :
    runLoop fs chan = chan.foldl runStep fs := by
  induction chan generalizing fs with
  | nil => rfl
  | cons item rest ih => simp [runLoop, List.foldl_cons, ih]

/-- Claim C8: the watch loop consumes every delivered item — events whose
handling fails and channel-level delivery faults are skipped, never
terminal — and `run` returns, successfully, exactly when the channel is
closed (the delivery list is exhausted). -/
theorem c8_loop_never_dies :
    (∀ (fs : FS) (chan : List ChannelItem),
      runWatch true fs chan = Except.ok (chan.foldl runStep fs))
    ∧ (∀ (fs : FS) (item : ChannelItem) (rest : List ChannelItem),
      runLoop fs (item :: rest) = runLoop (runStep fs item) rest) := by
  constructor
  · intro fs chan
    simp [runWatch, runLoop_eq_foldl]
  · intro fs item rest
    rfl

/-- Claim C10: `handle_event` never returns an error — every per-path
failure is swallowed inside the created-file branch — so the watch loop's
error-logging branch for `handle_event` can never run: the loop step is
always the `Ok` outcome of `handle_event`. -/
theorem c10_handle_event_infallible :
    ∀ (fs : FS) (ev : Event), ∃ out, handle_event fs ev = Except.ok out
      ∧ runStep fs (ChannelItem.recv ev) = out.1 := by
  intro fs ev
  cases hk : ev.kind
  case createFile =>
    exact ⟨handlePaths fs ev.paths, by simp [handle_event, hk],
      by simp [runStep, handle_event, hk]⟩
  all_goals exact ⟨(fs, []), by simp [handle_event, hk],
    by simp [runStep, handle_event, hk]⟩

/-! ## Claim C9 -/

/-- Claim C9: path resolution passes absolute target strings through
unchanged; a relative target is joined onto the home directory; and when
no home directory can be determined, backload exits the process before
any directory listing — for every filesystem and every listing outcome
the result is the config-exit outcome, with nothing touched. -/
theorem c9_path_resolution :
    (∀ (t : String) (home : Option String), isAbsolutePath t = true →
      expand_path home t = Except.ok t)
    ∧ (∀ (t h : String), isAbsolutePath t = false →
      expand_path (some h) t = Except.ok (pushPath h t))
    ∧ (∀ (t : String) (fs : FS) (listing : Except Unit (List (Except Unit String))),
      isAbsolutePath t = false →
      backloadWith none t fs listing = BackOutcome.exitConfig) := by
  refine ⟨?_, ?_, ?_⟩
  · intro t home h
    simp [expand_path, h]
  · intro t h hab
    simp [expand_path, hab]
  · intro t fs listing hab
    simp [backloadWith, expand_path, hab]

/-- Witness for claim C9 at concrete paths. -/
theorem c9_witness :
    isAbsolutePath "/tmp/watch" = true
    ∧ expand_path none "/tmp/watch" = Except.ok "/tmp/watch"
    ∧ isAbsolutePath "Downloads" = false
    ∧ expand_path (some "/home/u") "Downloads" = Except.ok (pushPath "/home/u" "Downloads")
    ∧ backloadWith none "Downloads" ⟨[]⟩ (Except.ok []) = BackOutcome.exitConfig :=
  ⟨by decide,
   c9_path_resolution.1 "/tmp/watch" none (by decide),
   by decide,
   c9_path_resolution.2.1 "Downloads" "/home/u" (by decide),
   c9_path_resolution.2.2 "Downloads" ⟨[]⟩ (Except.ok []) (by decide)⟩
